import Mathlib

/-!
A shallow embedding of the Monkey-style recursive-descent parser
(`src/parser.rs` of `imitation_interpreter`) in Lean 4, with theorems
checking the natural-language specification against the code.

The parser core (`parser.rs`) is embedded function-by-function.  The
collaborating modules (`token.rs`, `ast.rs`, `errors.rs`, `lexer.rs`) are
not part of the sources under study; the pieces of them the parser needs
(the precedence table, the AST shapes, the hashmap ordering, the rendering
function) are modelled from the specification, each marked as such.

Rust's mutable `Parser` struct becomes explicit state passing
(`PState`), the lexer becomes a finite list of tokens that idempotently
yields the end-of-input token once exhausted, fallible code returns a
`PResult` that distinguishes ordinary success, the structured error,
a process abort (Rust `panic!` / `unimplemented!` / `unwrap` failure)
and running out of fuel.  All recursion is fuel-indexed and structural,
so every definition evaluates by kernel reduction.
-/

/-- Modelled from the spec: token kinds of the external lexer/token module
("identifier, integer, string, boolean keywords, operator symbols,
delimiters, keywords, and an end-of-input sentinel"), with the `DEFAULT`
placeholder kind the parser constructor uses before priming. -/
inductive TokenKind where
  | DEFAULT
  | IDENT
  | INT
  | STRING
  | TRUE
  | FALSE
  | IF
  | ELSE
  | FUNCTION
  | LET
  | RETURN
  | ASSIGN
  | PLUS
  | MINUS
  | BANG
  | ASTERISK
  | SLASH
  | EQ
  | NotEq
  | LT
  | GT
  | COMMA
  | COLON
  | SEMICOLON
  | LPAREN
  | RPAREN
  | LBRACE
  | RBRACE
  | LBRACKET
  | RBRACKET
  | EOF
deriving DecidableEq, Repr

/-- Modelled from the spec: a token is "(kind, literal-text)", immutable. -/
structure Token where
  token_type : TokenKind
  literal : String
deriving DecidableEq, Repr

/-- Modelled from the spec: precedence ranks, lowest to highest:
LOWEST < EQUALITY < RELATIONAL < SUM < PRODUCT < PREFIX < CALL. -/
inductive Precedence where
  | LOWEST
  | EQUALITY
  | RELATIONAL
  | SUM
  | PRODUCT
  | PREFIX
  | CALL
deriving DecidableEq, Repr

/-- Numeric rank of a precedence, used to compare precedences. -/
def Precedence.rank : Precedence → Nat
  | .LOWEST => 0
  | .EQUALITY => 1
  | .RELATIONAL => 2
  | .SUM => 3
  | .PRODUCT => 4
  | .PREFIX => 5
  | .CALL => 6

/-- `precedence < next_precedence` comparison of the climbing loop. -/
def precLt (a b : Precedence) : Bool := a.rank < b.rank

/-- Modelled from the spec: the precedence table is "a total function from
a subset of token kinds to an ordered precedence rank; kinds not present
are treated as lowest rank": EQUALITY for `== !=`, RELATIONAL for `< >`,
SUM for `+ -`, PRODUCT for `* /`, CALL/INDEX for `( [`.
(`Token::get_precedence` lives in the external token/ast module.) -/
def Token.get_precedence (t : Token) : Precedence :=
  match t.token_type with
  | .EQ => .EQUALITY
  | .NotEq => .EQUALITY
  | .LT => .RELATIONAL
  | .GT => .RELATIONAL
  | .PLUS => .SUM
  | .MINUS => .SUM
  | .ASTERISK => .PRODUCT
  | .SLASH => .PRODUCT
  | .LPAREN => .CALL
  | .LBRACKET => .CALL
  | _ => .LOWEST

/-- Modelled from the spec: the error value is "a small closed set of
parse-failure kinds, each carrying the offending token"; in the source the
single variant is `Errors::TokenInvalid(Token)`. -/
inductive Errors where
  | TokenInvalid (t : Token)
deriving DecidableEq, Repr

mutual
/-- AST expression variants (`ast.rs::Expression`), as used by
`parser.rs`: `Str` stands for the source's `Expression::String`, `Hashmap`
holds its pairs as an ordered association list (the source's `BTreeMap`),
see `hash_insert`. -/
inductive Expression where
  | Identifier (name : String)
  | Integer (value : Int)
  | Str (value : String)
  | Bool (value : Bool)
  | PrefixExpression (operator : String) (right_expression : Expression)
  | InfixExpression (left_expression : Expression) (operator : String)
      (right_expression : Expression)
  | IfExpression (condition : Expression) (consequence : Statement)
      (alternative : Option Statement)
  | FunctionLiteral (parameters : List Expression) (body : Statement)
  | CallExpression (function : Expression) (body : List Expression)
  | Array (elements : List Expression)
  | Hashmap (pairs : List (Expression × Expression))
  | IndexExpression (array : Expression) (subscript : Expression)
  | Null
/-- AST statement variants (`ast.rs::Statement`), as used by `parser.rs`. -/
inductive Statement where
  | LetStatement (identifier : Expression) (value : Expression)
  | Return (value : Expression)
  | ExpressionStatement (value : Expression)
  | Block (statements : List Statement)
end

/-- A program is an ordered sequence of statements. -/
structure Program where
  statements : List Statement

/-- Lexicographic order on character lists (by code point). -/
def lexLt : List Char → List Char → Bool
  | [], [] => false
  | [], _ :: _ => true
  | _ :: _, [] => false
  | a :: as, b :: bs =>
    if a.toNat < b.toNat then true
    else if b.toNat < a.toNat then false
    else lexLt as bs

/-- Strict lexicographic order on strings, used as the total order over
rendered key text of hash-literal keys. -/
def strLt (a b : String) : Bool := lexLt a.data b.data

/-- Whether an expression is a compound operator form, which the renderer
parenthesizes when it appears as an operand. -/
def isCompound : Expression → Bool
  | .PrefixExpression _ _ => true
  | .InfixExpression _ _ _ => true
  | .IndexExpression _ _ => true
  | _ => false

/-- Wraps a rendered operand in parentheses when asked to. -/
def wrapParens (b : Bool) (s : String) : String :=
  if b then "(" ++ s ++ ")" else s

mutual
/-- Modelled from the spec: the external AST module's rendering function,
"a canonical textual form ... stable and parenthesization-explicit for
operator expressions", matching the seed cases: a prefix or infix node
renders with its compound operands parenthesized (`"(-a) * b"`,
`"(a + b) + c"`, `"a + (b * c)"`), arrays render `[e, ...]`, hash literals
render `\x7bk: v, ...\x7d`, index expressions render `a[i]` with a compound
subscript parenthesized. -/
def render : Expression → String
  | .Identifier name => name
  | .Integer value => toString value
  | .Str value => value
  | .Bool value => if value then "true" else "false"
  | .PrefixExpression op r => op ++ wrapParens (isCompound r) (render r)
  | .InfixExpression l op r =>
    wrapParens (isCompound l) (render l) ++ " " ++ op ++ " " ++
      wrapParens (isCompound r) (render r)
  | .IfExpression c cons alt =>
    let head := "if (" ++ render c ++ ") \x7b" ++ renderStmt cons ++ "\x7d"
    match alt with
    | some a => head ++ " else \x7b" ++ renderStmt a ++ "\x7d"
    | none => head
  | .FunctionLiteral ps b =>
    "fn (" ++ renderList ps ++ ") \x7b" ++ renderStmt b ++ "\x7d"
  | .CallExpression fe args => render fe ++ "(" ++ renderList args ++ ")"
  | .Array es => "[" ++ renderList es ++ "]"
  | .Hashmap pairs => "\x7b" ++ renderPairs pairs ++ "\x7d"
  | .IndexExpression a i => render a ++ "[" ++ wrapParens (isCompound i) (render i) ++ "]"
  | .Null => "null"

/-- Renders a comma-separated expression list. -/
def renderList : List Expression → String
  | [] => ""
  | [e] => render e
  | e :: rest => render e ++ ", " ++ renderList rest

/-- Renders comma-separated `key: value` hash pairs. -/
def renderPairs : List (Expression × Expression) → String
  | [] => ""
  | [(k, v)] => render k ++ ": " ++ render v
  | (k, v) :: rest => render k ++ ": " ++ render v ++ ", " ++ renderPairs rest

/-- Renders a statement. -/
def renderStmt : Statement → String
  | .LetStatement i v => "let " ++ render i ++ " = " ++ render v
  | .Return v => "return " ++ render v
  | .ExpressionStatement v => render v
  | .Block l => renderStmtList l

/-- Renders the statements of a block. -/
def renderStmtList : List Statement → String
  | [] => ""
  | [s] => renderStmt s
  | s :: rest => renderStmt s ++ "; " ++ renderStmtList rest
end

/-- Modelled from the spec: the `BTreeMap` insertion of `parse_hash_literal`,
"pairs are stored in an ordering keyed by the rendered text of the key
expression, independent of insertion order".  Inserts into an association
list kept strictly sorted by rendered key text; an equal key replaces the
stored value (as `BTreeMap::insert` does). -/
def hash_insert : List (Expression × Expression) → Expression → Expression →
    List (Expression × Expression)
  | [], k, v => [(k, v)]
  | (k', v') :: rest, k, v =>
    if strLt (render k) (render k') then (k, v) :: (k', v') :: rest
    else if render k = render k' then (k', v) :: rest
    else (k', v') :: hash_insert rest k v

/-- Numeric value of a decimal digit character, if it is one. -/
def digitVal (c : Char) : Option Nat :=
  if '0' ≤ c ∧ c ≤ '9' then some (c.toNat - 48) else none

/-- Accumulating decimal reader for `i32FromStr`. -/
def readDigits : List Char → Nat → Option Nat
  | [], acc => some acc
  | c :: rest, acc =>
    match digitVal c with
    | some d => readDigits rest (acc * 10 + d)
    | none => none

/-- Rust's `str::parse::<i32>`: an optional sign followed by at least one
decimal digit, `none` when empty, on a non-digit, or when the value does
not fit a 32-bit signed integer. -/
def i32FromStr (s : String) : Option Int :=
  let signed : List Char → Bool × List Char
    | '+' :: rest => (false, rest)
    | '-' :: rest => (true, rest)
    | l => (false, l)
  let (neg, digits) := signed s.data
  match digits with
  | [] => none
  | _ =>
    match readDigits digits 0 with
    | none => none
    | some n =>
      if neg then
        if n ≤ 2 ^ 31 then some (-(n : Int)) else none
      else
        if n ≤ 2 ^ 31 - 1 then some (n : Int) else none

/-- The end-of-input token the exhausted token source yields, repeatedly
and idempotently. -/
def eofToken : Token := ⟨.EOF, ""⟩

/-- Parser state: the two-token lookahead window (`current_token`,
`next_token` of the `Parser` struct) plus the tokens the lexer has not yet
produced. -/
structure PState where
  current_token : Token
  next_token : Token
  rest : List Token
deriving DecidableEq, Repr

/-- `Parser::next_token`: shifts `next_token` into `current_token` and
pulls the next token from the source (EOF once exhausted). -/
def next_token (st : PState) : PState :=
  { current_token := st.next_token,
    next_token := st.rest.headD eofToken,
    rest := st.rest.tail }

/-- `Parser::new`: primes both lookahead slots from `DEFAULT` placeholders
by advancing twice. -/
def mkParser (ts : List Token) : PState :=
  next_token (next_token ⟨⟨.DEFAULT, "default"⟩, ⟨.DEFAULT, "default"⟩, ts⟩)

/-- `Parser::is_current_token`. -/
def is_current_token (st : PState) (k : TokenKind) : Bool :=
  st.current_token.token_type = k

/-- `Parser::is_next_token`. -/
def is_next_token (st : PState) (k : TokenKind) : Bool :=
  st.next_token.token_type = k

/-- `Parser::expect_next_token`: if `next_token` has the expected kind,
advance and report success, else leave the state untouched and report
failure. -/
def expect_next_token (k : TokenKind) (st : PState) : Bool × PState :=
  if is_next_token st k then (true, next_token st) else (false, st)

/-- `Parser::current_precedence`. -/
def current_precedence (st : PState) : Precedence :=
  st.current_token.get_precedence

/-- `Parser::next_precedence`. -/
def next_precedence (st : PState) : Precedence :=
  st.next_token.get_precedence

/-- Outcome of a fueled parsing function: success or the structured error
(each with the parser state left behind), a process abort (`panic!`,
`unimplemented!`, a failed `unwrap`), or fuel exhaustion. -/
inductive PResult (α : Type) where
  | ok (value : α) (st : PState)
  | err (e : Errors) (st : PState)
  | panicked
  | diverge
deriving Repr

/-- `Parser::parse_identifier` (always succeeds with the current literal). -/
def parse_identifier (st : PState) : String := st.current_token.literal

/-- `Parser::parse_string` (always succeeds with the current literal). -/
def parse_string (st : PState) : String := st.current_token.literal

/-- `Parser::parse_integer`: `literal.parse::<i32>().unwrap()` — `none`
means the `unwrap` panics. -/
def parse_integer (st : PState) : Option Int :=
  i32FromStr st.current_token.literal

/-- Propagation of non-success outcomes, Rust's `?` operator: a success
feeds the continuation, everything else passes through. -/
def PResult.andThen (r : PResult α) (k : α → PState → PResult β) : PResult β :=
  match r with
  | .ok value st => k value st
  | .err e st => .err e st
  | .panicked => .panicked
  | .diverge => .diverge

/-- The terminator-seeking loop of `Parser::parse_return_statement`
(`while !self.is_current_token(SEMICOLON) { self.next_token() }`). -/
def skip_to_semicolon : Nat → PState → PResult Unit
  | 0, _ => .diverge
  | fuel+1, st =>
    if is_current_token st .SEMICOLON then .ok () st
    else skip_to_semicolon fuel (next_token st)

/-- The comma loop of `Parser::parse_function_parameters`, followed by the
closing-parenthesis expectation whose failure is `panic!()`. -/
def parse_function_parameters_loop :
    Nat → List Expression → PState → PResult (List Expression)
  | 0, _, _ => .diverge
  | fuel+1, identifiers, st =>
    if is_next_token st .COMMA then
      let st1 := next_token (next_token st)
      parse_function_parameters_loop fuel
        (identifiers ++ [.Identifier st1.current_token.literal]) st1
    else
      let (b, st1) := expect_next_token .RPAREN st
      if ¬ b then .panicked
      else .ok identifiers st1

/-- `Parser::parse_function_parameters`. -/
def parse_function_parameters : Nat → PState → PResult (List Expression)
  | 0, _ => .diverge
  | fuel+1, st =>
    if is_next_token st .RPAREN then .ok [] (next_token st)
    else
      let st1 := next_token st
      parse_function_parameters_loop fuel
        [.Identifier st1.current_token.literal] st1

mutual
/-- The statement loop of `Parser::parse_program`
(`while !self.is_current_token(EOF)`), accumulating statements. -/
def parse_program_aux : Nat → PState → List Statement → PResult (List Statement)
  | 0, _, _ => .diverge
  | fuel+1, st, acc =>
    if is_current_token st .EOF then .ok acc st
    else
      (parse_statement fuel st).andThen fun s st1 =>
        parse_program_aux fuel (next_token st1) (acc ++ [s])

/-- `Parser::parse_statement`: flat dispatch on the current token kind. -/
def parse_statement : Nat → PState → PResult Statement
  | 0, _ => .diverge
  | fuel+1, st =>
    match st.current_token.token_type with
    | .LET => parse_let_statement fuel st
    | .RETURN => parse_return_statement fuel st
    | _ => parse_expression_statement fuel st

/-- `Parser::parse_let_statement`, including the short-circuit of
`!is_current_token(IDENT) || expect_next_token(IDENT)`. -/
def parse_let_statement : Nat → PState → PResult Statement
  | 0, _ => .diverge
  | fuel+1, st =>
    let st1 := next_token st
    if ¬ is_current_token st1 .IDENT then
      .err (.TokenInvalid st1.next_token) st1
    else
      let (b, st2) := expect_next_token .IDENT st1
      if b then .err (.TokenInvalid st2.next_token) st2
      else
        let identifier := Expression.Identifier st2.current_token.literal
        let (b2, st3) := expect_next_token .ASSIGN st2
        if ¬ b2 then .err (.TokenInvalid st3.next_token) st3
        else
          let st4 := next_token st3
          (parse_expression fuel .LOWEST st4).andThen fun value st5 =>
            let st6 := if is_next_token st5 .SEMICOLON then next_token st5 else st5
            .ok (.LetStatement identifier value) st6

/-- `Parser::parse_return_statement`: parse the value, then seek the
semicolon terminator. -/
def parse_return_statement : Nat → PState → PResult Statement
  | 0, _ => .diverge
  | fuel+1, st =>
    let st1 := next_token st
    (parse_expression fuel .LOWEST st1).andThen fun value st2 =>
      (skip_to_semicolon fuel st2).andThen fun _ st3 =>
        .ok (.Return value) st3

/-- `Parser::parse_expression_statement`. -/
def parse_expression_statement : Nat → PState → PResult Statement
  | 0, _ => .diverge
  | fuel+1, st =>
    (parse_expression fuel .LOWEST st).andThen fun value st1 =>
      let st2 := if is_next_token st1 .SEMICOLON then next_token st1 else st1
      .ok (.ExpressionStatement value) st2

/-- `Parser::parse_expression`: dispatch on the current kind to a prefix
rule, then enter the precedence-climbing loop. -/
def parse_expression : Nat → Precedence → PState → PResult Expression
  | 0, _, _ => .diverge
  | fuel+1, precedence, st =>
    let start : PResult Expression :=
      match st.current_token.token_type with
      | .IDENT => .ok (.Identifier (parse_identifier st)) st
      | .STRING => .ok (.Str (parse_string st)) st
      | .INT =>
        match parse_integer st with
        | some n => .ok (.Integer n) st
        | none => .panicked
      | .TRUE => .ok (.Bool true) st
      | .FALSE => .ok (.Bool false) st
      | .IF => parse_if_expression fuel st
      | .LPAREN => parse_grouped_expression fuel st
      | .LBRACE => parse_hash_literal fuel st
      | .LBRACKET => parse_array_literal fuel st
      | .FUNCTION => parse_function_expression fuel st
      | .BANG => parse_prefix_expression fuel st
      | .MINUS => parse_prefix_expression fuel st
      | _ => .err (.TokenInvalid st.current_token) st
    start.andThen fun exp st1 => parse_expression_loop fuel precedence exp st1

/-- The climbing loop of `Parser::parse_expression`
(`while !is_next_token(SEMICOLON) && precedence < next_precedence()`),
dispatching on the peek kind to an infix/postfix rule. -/
def parse_expression_loop : Nat → Precedence → Expression → PState → PResult Expression
  | 0, _, _, _ => .diverge
  | fuel+1, precedence, exp, st =>
    if is_next_token st .SEMICOLON then .ok exp st
    else if ¬ precLt precedence (next_precedence st) then .ok exp st
    else
      match st.next_token.token_type with
      | .PLUS | .MINUS | .SLASH | .ASTERISK | .EQ | .NotEq | .LT | .GT =>
        (parse_infix_expression fuel exp (next_token st)).andThen fun e st1 =>
          parse_expression_loop fuel precedence e st1
      | .LPAREN =>
        (parse_call_arguments fuel exp (next_token st)).andThen fun e st1 =>
          parse_expression_loop fuel precedence e st1
      | .LBRACKET =>
        (parse_index_expression fuel exp (next_token st)).andThen fun e st1 =>
          parse_expression_loop fuel precedence e st1
      | _ => .ok exp st

/-- `Parser::parse_hash_literal` (the pair loop is `parse_hash_loop`). -/
def parse_hash_literal : Nat → PState → PResult Expression
  | 0, _ => .diverge
  | fuel+1, st => parse_hash_loop fuel st []

/-- The pair loop of `Parser::parse_hash_literal`
(`while !is_next_token(RBRACE)`), including the closing-brace expectation
that follows the loop; a missing colon or comma yields the Null sentinel. -/
def parse_hash_loop : Nat → PState → List (Expression × Expression) → PResult Expression
  | 0, _, _ => .diverge
  | fuel+1, st, pairs =>
    if is_next_token st .RBRACE then
      let (b, st1) := expect_next_token .RBRACE st
      if b then .ok (.Hashmap pairs) st1 else .ok .Null st1
    else
      let st1 := next_token st
      (parse_expression fuel .LOWEST st1).andThen fun key st2 =>
        let (b, st3) := expect_next_token .COLON st2
        if ¬ b then .ok .Null st3
        else
          let st4 := next_token st3
          (parse_expression fuel .LOWEST st4).andThen fun value st5 =>
            let pairs1 := hash_insert pairs key value
            if is_next_token st5 .RBRACE then parse_hash_loop fuel st5 pairs1
            else
              let (b2, st6) := expect_next_token .COMMA st5
              if ¬ b2 then .ok .Null st6
              else parse_hash_loop fuel st6 pairs1

/-- `Parser::parse_array_literal`. -/
def parse_array_literal : Nat → PState → PResult Expression
  | 0, _ => .diverge
  | fuel+1, st =>
    (parse_expression_list fuel .RBRACKET st).andThen fun list st1 =>
      .ok (.Array list) st1

/-- `Parser::parse_expression_list` (the comma loop is
`parse_expression_list_loop`). -/
def parse_expression_list : Nat → TokenKind → PState → PResult (List Expression)
  | 0, _, _ => .diverge
  | fuel+1, endk, st =>
    if is_next_token st endk then .ok [] (next_token st)
    else
      let st1 := next_token st
      (parse_expression fuel .LOWEST st1).andThen fun first st2 =>
        parse_expression_list_loop fuel endk [first] st2

/-- The comma loop of `Parser::parse_expression_list`, followed by the
end-delimiter expectation whose failure is `unimplemented!()`. -/
def parse_expression_list_loop :
    Nat → TokenKind → List Expression → PState → PResult (List Expression)
  | 0, _, _, _ => .diverge
  | fuel+1, endk, acc, st =>
    if is_next_token st .COMMA then
      let st1 := next_token (next_token st)
      (parse_expression fuel .LOWEST st1).andThen fun e st2 =>
        parse_expression_list_loop fuel endk (acc ++ [e]) st2
    else
      let (b, st1) := expect_next_token endk st
      if b then .ok acc st1 else .panicked

/-- `Parser::parse_index_expression`. -/
def parse_index_expression : Nat → Expression → PState → PResult Expression
  | 0, _, _ => .diverge
  | fuel+1, left, st =>
    let st1 := next_token st
    (parse_expression fuel .LOWEST st1).andThen fun index st2 =>
      let (b, st3) := expect_next_token .RBRACKET st2
      if ¬ b then .ok .Null st3
      else .ok (.IndexExpression left index) st3

/-- `Parser::parse_grouped_expression`. -/
def parse_grouped_expression : Nat → PState → PResult Expression
  | 0, _ => .diverge
  | fuel+1, st =>
    let st1 := next_token st
    (parse_expression fuel .LOWEST st1).andThen fun lparen st2 =>
      let (b, st3) := expect_next_token .RPAREN st2
      if b then .ok lparen st3
      else .err (.TokenInvalid st3.current_token) st3

/-- `Parser::parse_if_expression`.  The condition is parsed before the
opening-brace check, and its error (`condition?`) only propagates when the
brace check succeeds, mirroring the source's deferred `?`. -/
def parse_if_expression : Nat → PState → PResult Expression
  | 0, _ => .diverge
  | fuel+1, st =>
    if ¬ is_next_token st .LPAREN then .ok .Null st
    else
      let st1 := next_token st
      match parse_expression fuel .LOWEST st1 with
      | .ok condition st2 =>
        let (b, st3) := expect_next_token .LBRACE st2
        if ¬ b then .ok .Null st3
        else
          (parse_block_statements fuel .LBRACE st3).andThen fun consequence st4 =>
            (alternative fuel st4).andThen fun alt st5 =>
              .ok (.IfExpression condition consequence alt) st5
      | .err e st2 =>
        let (b, st3) := expect_next_token .LBRACE st2
        if ¬ b then .ok .Null st3
        else .err e st3
      | .panicked => .panicked
      | .diverge => .diverge

/-- `Parser::parse_block_statements` (its statement loop is
`parse_block_loop`); the token-kind parameter is unused in the source. -/
def parse_block_statements : Nat → TokenKind → PState → PResult Statement
  | 0, _, _ => .diverge
  | fuel+1, _, st => parse_block_loop fuel (next_token st) []

/-- The statement loop of `Parser::parse_block_statements`
(`while !is_current_token(RBRACE) && !is_current_token(EOF)`). -/
def parse_block_loop : Nat → PState → List Statement → PResult Statement
  | 0, _, _ => .diverge
  | fuel+1, st, acc =>
    if ¬ is_current_token st .RBRACE ∧ ¬ is_current_token st .EOF then
      (parse_statement fuel st).andThen fun s st1 =>
        parse_block_loop fuel (next_token st1) (acc ++ [s])
    else .ok (.Block acc) st

/-- `Parser::alternative`: the optional `else` clause of an if. -/
def alternative : Nat → PState → PResult (Option Statement)
  | 0, _ => .diverge
  | fuel+1, st =>
    if is_next_token st .ELSE then
      let st1 := next_token st
      let (b, st2) := expect_next_token .LBRACE st1
      if b then
        (parse_block_statements fuel .LBRACE st2).andThen fun alt st3 =>
          .ok (some alt) st3
      else .err (.TokenInvalid st2.current_token) st2
    else .ok none st

/-- `Parser::parse_function_expression`; the two `expect_next_token`
results only feed a `println!`, so only their state change matters. -/
def parse_function_expression : Nat → PState → PResult Expression
  | 0, _ => .diverge
  | fuel+1, st =>
    let (_, st1) := expect_next_token .LPAREN st
    (parse_function_parameters fuel st1).andThen fun parameters st2 =>
      let (_, st3) := expect_next_token .LBRACE st2
      (parse_block_statements fuel .LBRACE st3).andThen fun body st4 =>
        .ok (.FunctionLiteral parameters body) st4

/-- `Parser::parse_call_arguments` (the comma loop is
`parse_call_arguments_loop`). -/
def parse_call_arguments : Nat → Expression → PState → PResult Expression
  | 0, _, _ => .diverge
  | fuel+1, func, st =>
    if is_next_token st .RPAREN then
      .ok (.CallExpression func []) (next_token st)
    else
      let st1 := next_token st
      (parse_expression fuel .LOWEST st1).andThen fun a st2 =>
        parse_call_arguments_loop fuel func [a] st2

/-- The comma loop of `Parser::parse_call_arguments`, followed by the
closing-parenthesis expectation whose failure yields the Null sentinel. -/
def parse_call_arguments_loop :
    Nat → Expression → List Expression → PState → PResult Expression
  | 0, _, _, _ => .diverge
  | fuel+1, func, arguments, st =>
    if is_next_token st .COMMA then
      let st1 := next_token (next_token st)
      (parse_expression fuel .LOWEST st1).andThen fun a st2 =>
        parse_call_arguments_loop fuel func (arguments ++ [a]) st2
    else
      let (b, st1) := expect_next_token .RPAREN st
      if ¬ b then .ok .Null st1
      else .ok (.CallExpression func arguments) st1

/-- `Parser::parse_prefix_expression`. -/
def parse_prefix_expression : Nat → PState → PResult Expression
  | 0, _ => .diverge
  | fuel+1, st =>
    let operator := st.current_token.literal
    let st1 := next_token st
    (parse_expression fuel Precedence.PREFIX st1).andThen fun right st2 =>
      .ok (.PrefixExpression operator right) st2

/-- `Parser::parse_infix_expression`: maps the current kind to the
operator text (any other kind is `panic!()`), then parses the right
operand at the operator's own precedence. -/
def parse_infix_expression : Nat → Expression → PState → PResult Expression
  | 0, _, _ => .diverge
  | fuel+1, left, st =>
    let operator : Option String :=
      match st.current_token.token_type with
      | .PLUS => some "+"
      | .MINUS => some "-"
      | .ASTERISK => some "*"
      | .SLASH => some "/"
      | .EQ => some "=="
      | .NotEq => some "!="
      | .LT => some "<"
      | .GT => some ">"
      | _ => none
    match operator with
    | none => .panicked
    | some op =>
      let precedence := current_precedence st
      let st1 := next_token st
      (parse_expression fuel precedence st1).andThen fun right st2 =>
        .ok (.InfixExpression left op right) st2
end

/-- `Parser::parse_program`: the accumulated statements become the
`Program`. -/
def parse_program (fuel : Nat) (st : PState) : PResult Program :=
  (parse_program_aux fuel st []).andThen fun statements st1 =>
    .ok ⟨statements⟩ st1

/-- Builds the parser over a token list and runs `parse_program`, as the
driver does. -/
def run_parse (fuel : Nat) (ts : List Token) : PResult Program :=
  parse_program fuel (mkParser ts)

/-- An identifier token. -/
def identTok (s : String) : Token := ⟨.IDENT, s⟩

/-- An integer token. -/
def intTok (s : String) : Token := ⟨.INT, s⟩

/-- A string token. -/
def strTok (s : String) : Token := ⟨.STRING, s⟩

/-- A token of an arbitrary kind. -/
def tk (k : TokenKind) (l : String) : Token := ⟨k, l⟩

/-- The statements of a parse outcome, `none` unless it succeeded. -/
def parsed_statements : PResult Program → Option (List Statement)
  | .ok p _ => some p.statements
  | _ => none

/-- The rendered statements of a parse outcome, `none` unless it
succeeded. -/
def rendered_statements : PResult Program → Option (List String)
  | .ok p _ => some (p.statements.map renderStmt)
  | _ => none

/-- The token kinds the climbing loop treats as binary infix operators. -/
def isBinaryOp : TokenKind → Bool
  | .PLUS | .MINUS | .SLASH | .ASTERISK | .EQ | .NotEq | .LT | .GT => true
  | _ => false

/-- The operator text `parse_infix_expression` produces for each binary
operator kind. -/
def opText : TokenKind → String
  | .PLUS => "+"
  | .MINUS => "-"
  | .ASTERISK => "*"
  | .SLASH => "/"
  | .EQ => "=="
  | .NotEq => "!="
  | .LT => "<"
  | .GT => ">"
  | _ => ""

theorem precLt_lowest_right (p : Precedence) : precLt p .LOWEST = false := by
  simp [precLt, Precedence.rank]

theorem precLt_irrefl (p : Precedence) : precLt p p = false := by
  simp [precLt]

theorem binary_not_semicolon {k : TokenKind} (h : isBinaryOp k = true) :
    k ≠ .SEMICOLON := by
  cases k <;> simp_all [isBinaryOp]

theorem binary_prec_pos {t : Token} (h : isBinaryOp t.token_type = true) :
    precLt .LOWEST t.get_precedence = true := by
  rcases t with ⟨k, lit⟩
  cases k <;> simp_all [isBinaryOp, Token.get_precedence, precLt, Precedence.rank]

/-- The climbing loop returns its expression untouched when the peek token
is a semicolon or does not exceed the bound. -/
theorem parse_expression_loop_exit (f : Nat) (prec : Precedence) (exp : Expression)
    (st : PState)
    (h : st.next_token.token_type = .SEMICOLON ∨ precLt prec (next_precedence st) = false) :
    parse_expression_loop (f+1) prec exp st = .ok exp st := by
  by_cases hs : is_next_token st .SEMICOLON
  · simp [parse_expression_loop, hs]
  · rcases h with h | h
    · exact absurd (by simp [is_next_token, h]) hs
    · simp [parse_expression_loop, hs, h]

/-- On an identifier whose peek token ends the climb, `parse_expression`
returns the identifier leaf and leaves the state unchanged. -/
theorem parse_expression_ident (f : Nat) (prec : Precedence) (st : PState)
    (hc : st.current_token.token_type = .IDENT)
    (h : st.next_token.token_type = .SEMICOLON ∨ precLt prec (next_precedence st) = false) :
    parse_expression (f+2) prec st = .ok (.Identifier st.current_token.literal) st := by
  have hx := parse_expression_loop_exit f prec (.Identifier st.current_token.literal) st h
  simp [parse_expression, hc, parse_identifier, PResult.andThen, hx]

/-- On a binary operator as the current token, `parse_infix_expression`
parses the right operand at the operator's own precedence and combines. -/
theorem parse_infix_unfold (f : Nat) (left : Expression) (st : PState)
    (h : isBinaryOp st.current_token.token_type = true) :
    parse_infix_expression (f+1) left st =
      (parse_expression f st.current_token.get_precedence (next_token st)).andThen
        fun right st2 =>
          .ok (.InfixExpression left (opText st.current_token.token_type) right) st2 := by
  rcases st with ⟨⟨k, lit⟩, nx, rest⟩
  cases k <;> simp_all [isBinaryOp, parse_infix_expression, opText,
    current_precedence, Token.get_precedence]

/-- On a binary operator as the peek token exceeding the bound, the
climbing loop advances onto the operator, runs the infix rule and
re-enters with the same bound. -/
theorem parse_expression_loop_enter (f : Nat) (prec : Precedence) (exp : Expression)
    (st : PState)
    (h : isBinaryOp st.next_token.token_type = true)
    (hgt : precLt prec (next_precedence st) = true) :
    parse_expression_loop (f+1) prec exp st =
      (parse_infix_expression f exp (next_token st)).andThen fun e st1 =>
        parse_expression_loop f prec e st1 := by
  have hs : is_next_token st .SEMICOLON = false := by
    simp [is_next_token, binary_not_semicolon h]
  rcases st with ⟨cur, ⟨k, lit⟩, rest⟩
  cases k <;> simp_all [isBinaryOp, parse_expression_loop]

/-- C6: parsing `"\x7b\x7d"` produces a single expression statement holding an
empty hash literal, and parsing `"fn () \x7b\x7d"` produces a function literal
with an empty parameter list and an empty block body. -/
theorem C6_empty_composites :
    parsed_statements (run_parse 100 [tk .LBRACE "\x7b", tk .RBRACE "\x7d"]) =
      some [.ExpressionStatement (.Hashmap [])] ∧
    parsed_statements (run_parse 100 [tk .FUNCTION "fn", tk .LPAREN "(", tk .RPAREN ")",
        tk .LBRACE "\x7b", tk .RBRACE "\x7d"]) =
      some [.ExpressionStatement (.FunctionLiteral [] (.Block []))] :=
  ⟨rfl, rfl⟩

/-- C7: parsing `"add(1, 2 * 3, 4 + 5)"` produces a Call expression whose
callee is the identifier `add` and whose arguments are exactly
`1`, `(2 * 3)`, `(4 + 5)` in source order. -/
theorem C7_call_arguments :
    parsed_statements (run_parse 100 [identTok "add", tk .LPAREN "(", intTok "1",
        tk .COMMA ",", intTok "2", tk .ASTERISK "*", intTok "3", tk .COMMA ",",
        intTok "4", tk .PLUS "+", intTok "5", tk .RPAREN ")"]) =
      some [.ExpressionStatement (.CallExpression (.Identifier "add")
        [.Integer 1, .InfixExpression (.Integer 2) "*" (.Integer 3),
          .InfixExpression (.Integer 4) "+" (.Integer 5)])] :=
  rfl

/-- C9: there are finite token streams on which `parse_program` neither
returns a Program nor a structured error but aborts: an array literal whose
element list is not followed by the closing bracket (`"[1, 2"`) reaches the
`unimplemented!()` in `parse_expression_list`, and a parameter list not
closed by a right parenthesis (`"fn (x"`) reaches the `panic!()` in
`parse_function_parameters`. -/
theorem C9_unclosed_list_panics :
    run_parse 100 [tk .LBRACKET "[", intTok "1", tk .COMMA ",", intTok "2"] = .panicked ∧
    run_parse 100 [tk .FUNCTION "fn", tk .LPAREN "(", identTok "x"] = .panicked :=
  ⟨rfl, rfl⟩

/-- C8: for every parser state and token kind, if the peek token's kind
matches, `expect_next_token` advances the cursor exactly once and returns
success; otherwise it returns failure and leaves the entire parser state
unchanged. -/
theorem C8_expect_next_token_frame (st : PState) (k : TokenKind) :
    (st.next_token.token_type = k → expect_next_token k st = (true, next_token st)) ∧
    (st.next_token.token_type ≠ k → expect_next_token k st = (false, st)) := by
  constructor <;> intro h <;> simp [expect_next_token, is_next_token, h]

/-- C8 witness: both branches of `C8_expect_next_token_frame` at a
concrete state. -/
theorem C8_expect_next_token_frame_witness :
    expect_next_token .IDENT ⟨tk .LET "let", identTok "x", []⟩ =
      (true, next_token ⟨tk .LET "let", identTok "x", []⟩) ∧
    expect_next_token .ASSIGN ⟨tk .LET "let", identTok "x", []⟩ =
      (false, ⟨tk .LET "let", identTok "x", []⟩) :=
  ⟨(C8_expect_next_token_frame ⟨tk .LET "let", identTok "x", []⟩ .IDENT).1 rfl,
   (C8_expect_next_token_frame ⟨tk .LET "let", identTok "x", []⟩ .ASSIGN).2 (by decide)⟩

/-- C10: for every integer token whose literal does not parse as a 32-bit
signed integer, parsing the expression aborts (the `unwrap` in
`parse_integer` panics) instead of returning a structured error. -/
theorem C10_integer_overflow_panics (s : String) (rest : List Token) (f : Nat)
    (hs : i32FromStr s = none) (hf : 4 ≤ f) :
    run_parse f (intTok s :: rest) = .panicked := by
  obtain ⟨g, rfl⟩ : ∃ g, f = g + 4 := ⟨f - 4, by omega⟩
  simp [run_parse, parse_program, mkParser, next_token, parse_program_aux,
    is_current_token, parse_statement, parse_expression_statement, parse_expression,
    parse_integer, intTok, PResult.andThen, hs]

/-- C10 witness: the literal `"2147483648"` (2^31) panics. -/
theorem C10_integer_overflow_panics_witness :
    i32FromStr "2147483648" = none ∧
    run_parse 10 [intTok "2147483648"] = .panicked :=
  ⟨by decide, C10_integer_overflow_panics "2147483648" [] 10 (by decide) (by omega)⟩

/-- C3: a `let` statement missing the assignment operator — the shape
`let <ident> <t2> ...` with `t2` neither the assignment operator nor an
identifier, e.g. the token stream of `"let x 5;"` — makes `parse_program`
return the structured "unexpected token" error carrying the offending
token, and no (partial) Program. -/
theorem C3_let_missing_assign (x : String) (t2 : Token) (rest : List Token) (f : Nat)
    (ha : t2.token_type ≠ .ASSIGN) (hi : t2.token_type ≠ .IDENT) (hf : 3 ≤ f) :
    run_parse f (tk .LET "let" :: identTok x :: t2 :: rest) =
      .err (.TokenInvalid t2) ⟨identTok x, t2, rest⟩ := by
  obtain ⟨g, rfl⟩ : ∃ g, f = g + 3 := ⟨f - 3, by omega⟩
  simp [run_parse, parse_program, mkParser, next_token, parse_program_aux,
    is_current_token, parse_statement, parse_let_statement, expect_next_token,
    is_next_token, tk, identTok, PResult.andThen, ha, hi]

/-- C3 witness: the token stream of `"let x 5;"`. -/
theorem C3_let_missing_assign_witness :
    run_parse 10 [tk .LET "let", identTok "x", intTok "5", tk .SEMICOLON ";"] =
      .err (.TokenInvalid (intTok "5")) ⟨identTok "x", intTok "5", [tk .SEMICOLON ";"]⟩ :=
  C3_let_missing_assign "x" (intTok "5") [tk .SEMICOLON ";"] 10 (by decide) (by decide)
    (by omega)

/-- Once the token source is exhausted (both lookahead slots hold the
idempotent end-of-input token), the terminator-seeking loop of
`parse_return_statement` never finds a semicolon: it spins forever,
whatever the fuel. -/
theorem skip_to_semicolon_stuck (f : Nat) :
    skip_to_semicolon f ⟨eofToken, eofToken, []⟩ = .diverge := by
  induction f with
  | zero => rfl
  | succ g ih =>
    simpa [skip_to_semicolon, is_current_token, eofToken, next_token] using ih

/-- C2: the claim that `parse_program` terminates on every finite token
stream is violated by the code: on the token stream of `"return 5"` (no
terminator, end-of-input repeating idempotently) the terminator-seeking
loop of `parse_return_statement` runs forever — for every fuel the run is
cut off rather than producing a Program or an error. -/
theorem C2_return_without_terminator_diverges (f : Nat) :
    run_parse f [tk .RETURN "return", intTok "5"] = .diverge := by
  match f with
  | 0 | 1 | 2 | 3 | 4 => rfl
  | g+5 =>
    have hloop := parse_expression_loop_exit g .LOWEST (.Integer 5)
      ⟨⟨.INT, "5"⟩, eofToken, []⟩ (Or.inr (by simp [next_precedence, precLt,
        eofToken, Token.get_precedence, Precedence.rank]))
    have hint : parse_integer ⟨⟨.INT, "5"⟩, eofToken, []⟩ = some 5 := rfl
    have hexpr : parse_expression (g+2) .LOWEST ⟨⟨.INT, "5"⟩, eofToken, []⟩ =
        .ok (.Integer 5) ⟨⟨.INT, "5"⟩, eofToken, []⟩ := by
      simp [parse_expression, hint, PResult.andThen, hloop]
    have hskip : skip_to_semicolon (g+2) ⟨⟨.INT, "5"⟩, eofToken, []⟩ = .diverge := by
      have := skip_to_semicolon_stuck (g+1)
      simpa [skip_to_semicolon, is_current_token, next_token] using this
    have hret : parse_return_statement (g+3) ⟨⟨.RETURN, "return"⟩, ⟨.INT, "5"⟩, []⟩ =
        .diverge := by
      simp [parse_return_statement, next_token, hexpr, PResult.andThen, hskip]
    have hstmt : parse_statement (g+4) ⟨⟨.RETURN, "return"⟩, ⟨.INT, "5"⟩, []⟩ =
        .diverge := by
      simp [parse_statement, hret]
    have hmk : mkParser [tk .RETURN "return", intTok "5"] =
        ⟨⟨.RETURN, "return"⟩, ⟨.INT, "5"⟩, []⟩ := rfl
    simp [run_parse, parse_program, hmk, parse_program_aux, is_current_token,
      PResult.andThen, hstmt]

/-- C5: a hash literal whose first key is not followed by a colon (shown
for every string key and every follower of lowest precedence), or whose
pair is not followed by a comma or the closing brace (shown on the token
stream of `"\x7b\x22a\x22: 1 \x22b\x22\x7d"`), makes `parse_hash_literal`
return `Ok` with the Null sentinel — not a structured error — and the
overall parse continues (shown on `"\x7b\x22a\x22 4"`, which parses to two
statements). -/
theorem C5_hash_degrades_to_null :
    (∀ (cur : Token) (s : String) (t2 : Token) (rest : List Token) (f : Nat),
      t2.token_type ≠ .COLON → t2.get_precedence = .LOWEST → 4 ≤ f →
      parse_hash_literal f ⟨cur, ⟨.STRING, s⟩, t2 :: rest⟩ =
        .ok .Null ⟨⟨.STRING, s⟩, t2, rest⟩) ∧
    parse_hash_literal 20 ⟨⟨.LBRACE, "\x7b"⟩, ⟨.STRING, "a"⟩,
        [⟨.COLON, ":"⟩, ⟨.INT, "1"⟩, ⟨.STRING, "b"⟩, ⟨.RBRACE, "\x7d"⟩]⟩ =
      .ok .Null ⟨⟨.INT, "1"⟩, ⟨.STRING, "b"⟩, [⟨.RBRACE, "\x7d"⟩]⟩ ∧
    parsed_statements (run_parse 100 [tk .LBRACE "\x7b", strTok "a", intTok "4"]) =
      some [.ExpressionStatement .Null, .ExpressionStatement (.Integer 4)] := by
  refine ⟨?_, rfl, rfl⟩
  intro cur s t2 rest f hcolon hp hf
  obtain ⟨g, rfl⟩ : ∃ g, f = g + 4 := ⟨f - 4, by omega⟩
  have hloop := parse_expression_loop_exit g .LOWEST (.Str s) ⟨⟨.STRING, s⟩, t2, rest⟩
    (Or.inr (by simp [next_precedence, hp, precLt, Precedence.rank]))
  have hexpr : parse_expression (g+2) .LOWEST ⟨⟨.STRING, s⟩, t2, rest⟩ =
      .ok (.Str s) ⟨⟨.STRING, s⟩, t2, rest⟩ := by
    simp [parse_expression, parse_string, PResult.andThen, hloop]
  simp [parse_hash_literal, parse_hash_loop, is_next_token, next_token,
    hexpr, PResult.andThen, expect_next_token, hcolon]

/-- C5 witness: the first conjunct at the token stream of `"\x7b\x22a\x22 4"`. -/
theorem C5_hash_degrades_to_null_witness :
    parse_hash_literal 10 ⟨⟨.LBRACE, "\x7b"⟩, ⟨.STRING, "a"⟩, [⟨.INT, "4"⟩]⟩ =
      .ok .Null ⟨⟨.STRING, "a"⟩, ⟨.INT, "4"⟩, []⟩ :=
  C5_hash_degrades_to_null.1 ⟨.LBRACE, "\x7b"⟩ "a" ⟨.INT, "4"⟩ [] 10
    (by decide) (by decide) (by omega)

theorem Char.eq_of_toNat_eq {a b : Char} (h : a.toNat = b.toNat) : a = b := by
  have hv : a.val = b.val := by
    apply UInt32.ext
    exact h
  cases a; cases b; simp_all

theorem lexLt_cons_iff (a b : Char) (as bs : List Char) :
    lexLt (a :: as) (b :: bs) = true ↔
      (a.toNat < b.toNat ∨ (a.toNat = b.toNat ∧ lexLt as bs = true)) := by
  simp only [lexLt]
  split_ifs with h1 h2
  · simp [h1]
  · simp; omega
  · have heq : a.toNat = b.toNat := by omega
    simp [heq]

theorem lexLt_irrefl : ∀ a : List Char, lexLt a a = false := by
  intro a
  induction a with
  | nil => rfl
  | cons x xs ih => simp [lexLt, ih]

theorem lexLt_trans : ∀ (a b c : List Char),
    lexLt a b = true → lexLt b c = true → lexLt a c = true := by
  intro a
  induction a with
  | nil =>
    intro b c hab hbc
    cases b with
    | nil => simp [lexLt] at hab
    | cons b1 bs =>
      cases c with
      | nil => simp [lexLt] at hbc
      | cons c1 cs => simp [lexLt]
  | cons a1 as ih =>
    intro b c hab hbc
    cases b with
    | nil => simp [lexLt] at hab
    | cons b1 bs =>
      cases c with
      | nil => simp [lexLt] at hbc
      | cons c1 cs =>
        rw [lexLt_cons_iff] at hab hbc ⊢
        rcases hab with h | ⟨he, ht⟩ <;> rcases hbc with h' | ⟨he', ht'⟩
        · exact Or.inl (by omega)
        · exact Or.inl (by omega)
        · exact Or.inl (by omega)
        · exact Or.inr ⟨by omega, ih bs cs ht ht'⟩

theorem lexLt_conn : ∀ (a b : List Char),
    lexLt a b = false → lexLt b a = false → a = b := by
  intro a
  induction a with
  | nil =>
    intro b hab _
    cases b with
    | nil => rfl
    | cons b1 bs => simp [lexLt] at hab
  | cons a1 as ih =>
    intro b hab hba
    cases b with
    | nil => simp [lexLt] at hba
    | cons b1 bs =>
      have hab' : ¬ (a1.toNat < b1.toNat ∨ (a1.toNat = b1.toNat ∧ lexLt as bs = true)) := by
        rw [← lexLt_cons_iff]; simp [hab]
      have hba' : ¬ (b1.toNat < a1.toNat ∨ (b1.toNat = a1.toNat ∧ lexLt bs as = true)) := by
        rw [← lexLt_cons_iff]; simp [hba]
      push_neg at hab' hba'
      have heq : a1.toNat = b1.toNat := by omega
      have h1 : lexLt as bs = false := by
        rcases hx : lexLt as bs with _ | _
        · rfl
        · exact absurd hx (by simpa [heq] using hab'.2 heq)
      have h2 : lexLt bs as = false := by
        rcases hx : lexLt bs as with _ | _
        · rfl
        · exact absurd hx (by simpa [heq] using hba'.2 heq.symm)
      rw [Char.eq_of_toNat_eq heq, ih bs h1 h2]

theorem strLt_trans {a b c : String} (h1 : strLt a b = true) (h2 : strLt b c = true) :
    strLt a c = true :=
  lexLt_trans a.data b.data c.data h1 h2

theorem strLt_irrefl (a : String) : strLt a a = false := lexLt_irrefl a.data

theorem strLt_conn {a b : String} (h1 : strLt a b = false) (h2 : strLt b a = false) :
    a = b := by
  have := lexLt_conn a.data b.data h1 h2
  cases a; cases b; simp_all

theorem strLt_asymm {a b : String} (h1 : strLt a b = true) (h2 : strLt b a = true) :
    False := by
  have := strLt_trans h1 h2
  simp [strLt_irrefl] at this

/-- The order the hash literal keeps its pairs in: strictly increasing
rendered key text. -/
def hashKeyLt (p q : Expression × Expression) : Prop :=
  strLt (render p.1) (render q.1) = true

/-- Every pair in the result of `hash_insert` either comes from the input
list or carries the rendered key text of the inserted key. -/
theorem mem_hash_insert (l : List (Expression × Expression)) (k v : Expression) :
    ∀ x ∈ hash_insert l k v, x ∈ l ∨ render x.1 = render k := by
  induction l with
  | nil =>
    intro x hx
    simp [hash_insert] at hx
    simp [hx]
  | cons p rest ih =>
    intro x hx
    rcases p with ⟨k', v'⟩
    simp only [hash_insert] at hx
    split_ifs at hx with h1 h2 <;> simp only [List.mem_cons] at hx
    · rcases hx with hx | hx | hx
      · exact Or.inr (by simp [hx])
      · exact Or.inl (by simp [List.mem_cons, hx])
      · exact Or.inl (by simp [List.mem_cons, hx])
    · rcases hx with hx | hx
      · exact Or.inr (by simp [hx, ← h2])
      · exact Or.inl (by simp [List.mem_cons, hx])
    · rcases hx with hx | hx
      · exact Or.inl (by simp [List.mem_cons, hx])
      · rcases ih x hx with h | h
        · exact Or.inl (by simp [List.mem_cons, h])
        · exact Or.inr h

/-- `hash_insert` keeps the association list strictly sorted by rendered
key text. -/
theorem hash_insert_pairwise (l : List (Expression × Expression)) (k v : Expression)
    (h : List.Pairwise hashKeyLt l) :
    List.Pairwise hashKeyLt (hash_insert l k v) := by
  induction l with
  | nil => simp [hash_insert]
  | cons p rest ih =>
    rcases p with ⟨k', v'⟩
    rw [List.pairwise_cons] at h
    obtain ⟨hhead, htail⟩ := h
    simp only [hash_insert]
    split_ifs with h1 h2
    · rw [List.pairwise_cons]
      constructor
      · intro x hx
        rw [List.mem_cons] at hx
        rcases hx with hx | hx
        · simp [hx, hashKeyLt, h1]
        · have := hhead x hx
          exact strLt_trans h1 this
      · rw [List.pairwise_cons]
        exact ⟨hhead, htail⟩
    · rw [List.pairwise_cons]
      exact ⟨fun x hx => hhead x hx, htail⟩
    · rw [List.pairwise_cons]
      constructor
      · intro x hx
        rcases mem_hash_insert rest k v x hx with hm | hm
        · exact hhead x hm
        · have hk'k : strLt (render k') (render k) = true := by
            rcases hs : strLt (render k') (render k) with _ | _
            · exact absurd (strLt_conn (by simpa using h1) hs) (by simp_all)
            · rfl
          simp only [hashKeyLt, hm]
          exact hk'k
      · exact ih htail

/-- The accumulation the hash-literal pair loop performs. -/
def hash_fold (l : List (Expression × Expression)) : List (Expression × Expression) :=
  l.foldl (fun acc p => hash_insert acc p.1 p.2) []

/-- Invariant of the hash-literal pair loop: starting from a strictly
sorted accumulator, any `Hashmap` it completes is strictly sorted by
rendered key text. -/
theorem parse_hash_loop_pairwise :
    ∀ (f : Nat) (st : PState) (acc : List (Expression × Expression))
      (pairs : List (Expression × Expression)) (st' : PState),
      List.Pairwise hashKeyLt acc →
      parse_hash_loop f st acc = .ok (.Hashmap pairs) st' →
      List.Pairwise hashKeyLt pairs := by
  intro f
  induction f with
  | zero =>
    intro st acc pairs st' _ h
    simp [parse_hash_loop] at h
  | succ g ih =>
    intro st acc pairs st' hacc h
    simp only [parse_hash_loop] at h
    by_cases hb : is_next_token st .RBRACE
    · simp only [hb, if_true, expect_next_token, if_pos hb] at h
      simp only [PResult.ok.injEq] at h
      obtain ⟨h1, _⟩ := h
      have : acc = pairs := (Expression.Hashmap.injEq _ _).mp h1
      exact this ▸ hacc
    · simp only [hb, if_false] at h
      cases hke : parse_expression g .LOWEST (next_token st) with
      | ok key st2 =>
        rw [hke] at h
        simp only [PResult.andThen] at h
        by_cases hc : is_next_token st2 .COLON
        · simp only [expect_next_token, hc, if_true] at h
          cases hve : parse_expression g .LOWEST (next_token (next_token st2)) with
          | ok value st5 =>
            rw [hve] at h
            simp only [PResult.andThen] at h
            by_cases hr : is_next_token st5 .RBRACE
            · simp only [hr, if_true] at h
              exact ih st5 (hash_insert acc key value) pairs st'
                (hash_insert_pairwise acc key value hacc) h
            · simp only [hr, if_false] at h
              by_cases hcm : is_next_token st5 .COMMA
              · simp only [expect_next_token, hcm, if_true] at h
                exact ih (next_token st5) (hash_insert acc key value) pairs st'
                  (hash_insert_pairwise acc key value hacc) h
              · simp only [expect_next_token, hcm, if_false] at h
                simp at h
          | err e st5 => rw [hve] at h; simp [PResult.andThen] at h
          | panicked => rw [hve] at h; simp [PResult.andThen] at h
          | diverge => rw [hve] at h; simp [PResult.andThen] at h
        · simp only [expect_next_token, hc, if_false] at h
          simp at h
      | err e st2 => rw [hke] at h; simp [PResult.andThen] at h
      | panicked => rw [hke] at h; simp [PResult.andThen] at h
      | diverge => rw [hke] at h; simp [PResult.andThen] at h

/-- Inserting a key whose rendered text is fresh never replaces: the
result is a permutation of consing the pair. -/
theorem hash_insert_of_not_mem (acc : List (Expression × Expression)) (k v : Expression)
    (h : render k ∉ acc.map (fun p => render p.1)) :
    List.Perm (hash_insert acc k v) ((k, v) :: acc) := by
  induction acc with
  | nil => simp [hash_insert]
  | cons p rest ih =>
    rcases p with ⟨k', v'⟩
    simp only [List.map_cons, List.mem_cons] at h
    push_neg at h
    obtain ⟨hne, hnm⟩ := h
    by_cases h1 : strLt (render k) (render k') = true
    · simp only [hash_insert, h1, if_true]
      exact List.Perm.refl _
    · by_cases h2 : render k = render k'
      · exact absurd h2 hne
      · simp only [hash_insert, h1, h2, if_false, Bool.false_eq_true]
        exact ((ih hnm).cons (k', v')).trans (List.Perm.swap (k, v) (k', v') rest)

/-- Folding `hash_insert` over distinct-keyed pairs yields a permutation
of the accumulator followed by the pairs. -/
theorem hash_foldl_perm :
    ∀ (l acc : List (Expression × Expression)),
      (((acc ++ l).map (fun p => render p.1)).Nodup) →
      List.Perm (List.foldl (fun a p => hash_insert a p.1 p.2) acc l) (acc ++ l) := by
  intro l
  induction l with
  | nil =>
    intro acc _
    simp
  | cons p l' ih =>
    intro acc hnd
    have hnotmem : render p.1 ∉ acc.map (fun q => render q.1) := by
      rw [List.map_append, List.nodup_append] at hnd
      intro hmem
      exact hnd.2.2 hmem (by simp)
    have hperm1 : List.Perm (hash_insert acc p.1 p.2) ((p.1, p.2) :: acc) :=
      hash_insert_of_not_mem acc p.1 p.2 hnotmem
    have hperm1' : List.Perm (hash_insert acc p.1 p.2) (p :: acc) := hperm1
    have hndstep : (((hash_insert acc p.1 p.2 ++ l').map (fun q => render q.1)).Nodup) := by
      have hp2 : List.Perm ((hash_insert acc p.1 p.2 ++ l').map (fun q => render q.1))
          (((p :: acc) ++ l').map (fun q => render q.1)) :=
        (hperm1'.append_right l').map _
      have hp3 : List.Perm (acc ++ p :: l') ((p :: acc) ++ l') :=
        List.perm_middle
      exact (hp2.trans ((hp3.map _).symm)).nodup_iff.mpr hnd
    have hfold := ih (hash_insert acc p.1 p.2) hndstep
    have hstep : List.Perm (hash_insert acc p.1 p.2 ++ l') (acc ++ p :: l') := by
      refine (hperm1'.append_right l').trans ?_
      simpa using (@List.perm_middle _ p acc l').symm
    simpa using hfold.trans hstep

/-- The fold underlying the hash literal always produces a strictly
sorted association list. -/
theorem hash_foldl_pairwise :
    ∀ (l acc : List (Expression × Expression)),
      List.Pairwise hashKeyLt acc →
      List.Pairwise hashKeyLt (List.foldl (fun a p => hash_insert a p.1 p.2) acc l) := by
  intro l
  induction l with
  | nil => intro acc h; simpa
  | cons p l' ih =>
    intro acc h
    exact ih (hash_insert acc p.1 p.2) (hash_insert_pairwise acc p.1 p.2 h)

/-- Insertion order does not matter: folding `hash_insert` over any
permutation of distinct-keyed pairs gives the same association list. -/
theorem hash_fold_perm_eq (l l' : List (Expression × Expression))
    (hp : List.Perm l l') (hnd : (l.map (fun p => render p.1)).Nodup) :
    hash_fold l = hash_fold l' := by
  haveI : IsAntisymm (Expression × Expression) hashKeyLt :=
    ⟨fun _ _ h1 h2 => (strLt_asymm h1 h2).elim⟩
  have hnd' : (l'.map (fun p => render p.1)).Nodup := ((hp.map _).nodup_iff).mp hnd
  have h1 : List.Perm (hash_fold l) l := by
    simpa [hash_fold] using hash_foldl_perm l [] (by simpa using hnd)
  have h2 : List.Perm (hash_fold l') l' := by
    simpa [hash_fold] using hash_foldl_perm l' [] (by simpa using hnd')
  have hperm : List.Perm (hash_fold l) (hash_fold l') :=
    (h1.trans hp).trans h2.symm
  exact List.eq_of_perm_of_sorted hperm
    (hash_foldl_pairwise l [] (by simp))
    (hash_foldl_pairwise l' [] (by simp))

/-- C4: every `Hashmap` node the hash-literal parser completes stores its
pairs strictly ordered by the total lexicographic order over the keys'
rendered text, independent of insertion order; in particular the token
stream of `\x7b"a": 4, "b": 1, "c": 3, "d": 2\x7d` renders with keys in
sorted order, a source permutation of its pairs parses to the identical
AST (both parse to the same sorted `Hashmap` node), and folding the
insertion over any permutation of distinct-keyed pairs yields the same
stored list. -/
theorem C4_hash_ordering :
    (∀ (f : Nat) (st : PState) (pairs : List (Expression × Expression)) (st' : PState),
      parse_hash_literal f st = .ok (.Hashmap pairs) st' →
      List.Pairwise hashKeyLt pairs) ∧
    rendered_statements (run_parse 100 [tk .LBRACE "\x7b", strTok "a", tk .COLON ":",
        intTok "4", tk .COMMA ",", strTok "b", tk .COLON ":", intTok "1", tk .COMMA ",",
        strTok "c", tk .COLON ":", intTok "3", tk .COMMA ",", strTok "d", tk .COLON ":",
        intTok "2", tk .RBRACE "\x7d"]) =
      some ["\x7ba: 4, b: 1, c: 3, d: 2\x7d"] ∧
    parsed_statements (run_parse 100 [tk .LBRACE "\x7b", strTok "b", tk .COLON ":",
        intTok "1", tk .COMMA ",", strTok "d", tk .COLON ":", intTok "2", tk .COMMA ",",
        strTok "a", tk .COLON ":", intTok "4", tk .COMMA ",", strTok "c", tk .COLON ":",
        intTok "3", tk .RBRACE "\x7d"]) =
      some [.ExpressionStatement (.Hashmap [(.Str "a", .Integer 4), (.Str "b", .Integer 1),
        (.Str "c", .Integer 3), (.Str "d", .Integer 2)])] ∧
    parsed_statements (run_parse 100 [tk .LBRACE "\x7b", strTok "a", tk .COLON ":",
        intTok "4", tk .COMMA ",", strTok "b", tk .COLON ":", intTok "1", tk .COMMA ",",
        strTok "c", tk .COLON ":", intTok "3", tk .COMMA ",", strTok "d", tk .COLON ":",
        intTok "2", tk .RBRACE "\x7d"]) =
      some [.ExpressionStatement (.Hashmap [(.Str "a", .Integer 4), (.Str "b", .Integer 1),
        (.Str "c", .Integer 3), (.Str "d", .Integer 2)])] ∧
    (∀ (l l' : List (Expression × Expression)), List.Perm l l' →
      (l.map (fun p => render p.1)).Nodup → hash_fold l = hash_fold l') := by
  refine ⟨?_, rfl, rfl, rfl, hash_fold_perm_eq⟩
  intro f st pairs st' h
  match f with
  | 0 => simp [parse_hash_literal] at h
  | g+1 =>
    simp only [parse_hash_literal] at h
    exact parse_hash_loop_pairwise g st [] pairs st' List.Pairwise.nil h

/-- C4 witness: the sortedness conjunct at the parsed token stream of
`\x7b"a": 4, "b": 1\x7d`, and the fold conjunct at a two-pair swap. -/
theorem C4_hash_ordering_witness :
    List.Pairwise hashKeyLt [(Expression.Str "a", Expression.Integer 4),
      (Expression.Str "b", Expression.Integer 1)] ∧
    hash_fold [(Expression.Str "b", Expression.Integer 1),
        (Expression.Str "a", Expression.Integer 4)] =
      hash_fold [(Expression.Str "a", Expression.Integer 4),
        (Expression.Str "b", Expression.Integer 1)] :=
  ⟨C4_hash_ordering.1 50
      ⟨⟨.LBRACE, "\x7b"⟩, ⟨.STRING, "a"⟩, [⟨.COLON, ":"⟩, ⟨.INT, "4"⟩, ⟨.COMMA, ","⟩,
        ⟨.STRING, "b"⟩, ⟨.COLON, ":"⟩, ⟨.INT, "1"⟩, ⟨.RBRACE, "\x7d"⟩]⟩
      [(Expression.Str "a", Expression.Integer 4), (Expression.Str "b", Expression.Integer 1)]
      ⟨⟨.RBRACE, "\x7d"⟩, ⟨.EOF, ""⟩, []⟩ rfl,
   C4_hash_ordering.2.2.2.2
      [(Expression.Str "b", Expression.Integer 1), (Expression.Str "a", Expression.Integer 4)]
      [(Expression.Str "a", Expression.Integer 4), (Expression.Str "b", Expression.Integer 1)]
      (List.Perm.swap _ _ _) (by simp [render])⟩

/-- The token stream of an operator chain after its leading identifier:
alternating operator and identifier tokens. -/
def chainFlat (l : List (Token × String)) : List Token :=
  l.foldr (fun p acc => p.1 :: identTok p.2 :: acc) []

/-- The token stream of `a0 op1 a1 op2 a2 ...`. -/
def chainTokens (a0 : String) (l : List (Token × String)) : List Token :=
  identTok a0 :: chainFlat l

/-- The parser state mid-chain: some current token, then the remaining
alternating operators and identifiers. -/
def chainState (cur : Token) (l : List (Token × String)) : PState :=
  ⟨cur, (chainFlat l).headD eofToken, (chainFlat l).tail⟩

/-- The left-deep expression a chain should parse to: a left fold of
infix nodes over the operator/identifier pairs. -/
def chainExp (start : Expression) (l : List (Token × String)) : Expression :=
  l.foldl (fun e p => .InfixExpression e (opText p.1.token_type) (.Identifier p.2)) start

/-- The token the cursor rests on after consuming a chain. -/
def chainLast (cur : Token) (l : List (Token × String)) : Token :=
  match l.getLast? with
  | some p => identTok p.2
  | none => cur

theorem chainLast_cons (cur : Token) (p : Token × String) (l : List (Token × String)) :
    chainLast cur (p :: l) = chainLast (identTok p.2) l := by
  cases l with
  | nil => rfl
  | cons q l' =>
    simp only [chainLast, List.getLast?_cons_cons]
    cases hx : (q :: l').getLast? with
    | none => simp at hx
    | some x => rfl

/-- On a binary operator whose following identifier is not extended (the
token after it does not exceed the operator's precedence), the infix rule
produces one infix node and rests on the identifier. -/
theorem parse_infix_step (f : Nat) (t : Token) (n : String) (rest : List Token)
    (exp : Expression) (hb : isBinaryOp t.token_type = true)
    (hnext : precLt t.get_precedence ((rest.headD eofToken).get_precedence) = false) :
    parse_infix_expression (f+3) exp ⟨t, identTok n, rest⟩ =
      .ok (.InfixExpression exp (opText t.token_type) (.Identifier n))
        ⟨identTok n, rest.headD eofToken, rest.tail⟩ := by
  rw [parse_infix_unfold (f+2) exp ⟨t, identTok n, rest⟩ hb]
  have hident := parse_expression_ident f t.get_precedence
    ⟨identTok n, rest.headD eofToken, rest.tail⟩ rfl
    (Or.inr (by simpa [next_precedence] using hnext))
  have hnt : next_token ⟨t, identTok n, rest⟩ =
      ⟨identTok n, rest.headD eofToken, rest.tail⟩ := rfl
  rw [hnt, hident]
  rfl

/-- The climbing loop on a chain of equal-rank binary operators folds the
chain left-deep: re-entering with the same bound, a same-rank right
operand is never absorbed by the recursive call. -/
theorem chain_loop (r : Precedence) :
    ∀ (l : List (Token × String)) (f : Nat) (cur : Token) (exp : Expression),
      (∀ p ∈ l, isBinaryOp p.1.token_type = true ∧ p.1.get_precedence = r) →
      parse_expression_loop (f + l.length + 4) .LOWEST exp (chainState cur l) =
        .ok (chainExp exp l) (chainState (chainLast cur l) []) := by
  intro l
  induction l with
  | nil =>
    intro f cur exp _
    exact parse_expression_loop_exit (f + 3) .LOWEST exp (chainState cur [])
      (Or.inr (by simp [next_precedence, chainState, chainFlat, eofToken,
        Token.get_precedence, precLt, Precedence.rank]))
  | cons p l' ih =>
    intro f cur exp hops
    obtain ⟨hb, hr⟩ := hops p (by simp)
    have hops' : ∀ q ∈ l', isBinaryOp q.1.token_type = true ∧ q.1.get_precedence = r :=
      fun q hq => hops q (by simp [hq])
    have hlen : f + (p :: l').length + 4 = (f + l'.length + 4) + 1 := by
      simp [List.length_cons]; omega
    rw [hlen]
    have hstnext : (chainState cur (p :: l')).next_token = p.1 := rfl
    have henter := parse_expression_loop_enter (f + l'.length + 4) .LOWEST exp
      (chainState cur (p :: l')) (by rw [hstnext]; exact hb)
      (by simp only [next_precedence, hstnext]; exact binary_prec_pos hb)
    rw [henter]
    have hfuel : f + l'.length + 4 = (f + l'.length + 1) + 3 := by omega
    have hnt : next_token (chainState cur (p :: l')) =
        ⟨p.1, identTok p.2, chainFlat l'⟩ := rfl
    have hnext : precLt p.1.get_precedence
        (((chainFlat l').headD eofToken).get_precedence) = false := by
      cases l' with
      | nil =>
        simp [chainFlat, eofToken, Token.get_precedence, precLt, Precedence.rank]
      | cons q l'' =>
        have hq := (hops' q (by simp)).2
        simp only [chainFlat, List.foldr_cons, List.headD_cons]
        rw [hr, hq]
        exact precLt_irrefl r
    have hstep := parse_infix_step (f + l'.length + 1) p.1 p.2 (chainFlat l') exp hb hnext
    rw [hnt, hfuel, hstep]
    have hst' : (⟨identTok p.2, (chainFlat l').headD eofToken, (chainFlat l').tail⟩ : PState) =
        chainState (identTok p.2) l' := rfl
    simp only [PResult.andThen]
    rw [hst']
    have := ih f (identTok p.2)
      (.InfixExpression exp (opText p.1.token_type) (.Identifier p.2)) hops'
    rw [this, chainLast_cons]
    rfl

/-- A whole-program run of an equal-rank operator chain: `parse_program`
returns exactly one expression statement holding the left-deep fold. -/
theorem chain_program (a0 : String) (l : List (Token × String)) (r : Precedence) (f : Nat)
    (hops : ∀ p ∈ l, isBinaryOp p.1.token_type = true ∧ p.1.get_precedence = r) :
    parsed_statements (run_parse (f + l.length + 8) (chainTokens a0 l)) =
      some [.ExpressionStatement (chainExp (.Identifier a0) l)] := by
  have hmk : mkParser (chainTokens a0 l) = chainState (identTok a0) l := rfl
  have hcl := chain_loop r l f (identTok a0) (.Identifier a0) hops
  have hkind : (chainState (identTok a0) l).current_token.token_type = .IDENT := rfl
  have hlit : parse_identifier (chainState (identTok a0) l) = a0 := rfl
  have hexp : parse_expression (f + l.length + 5) .LOWEST (chainState (identTok a0) l) =
      .ok (chainExp (.Identifier a0) l) (chainState (chainLast (identTok a0) l) []) := by
    have hfe : f + l.length + 5 = (f + l.length + 4) + 1 := by omega
    simp only [hfe, parse_expression, hkind, hlit, PResult.andThen]
    exact hcl
  have hsemi : is_next_token (chainState (chainLast (identTok a0) l) []) .SEMICOLON =
      false := rfl
  have hstmt : parse_expression_statement (f + l.length + 6) (chainState (identTok a0) l) =
      .ok (.ExpressionStatement (chainExp (.Identifier a0) l))
        (chainState (chainLast (identTok a0) l) []) := by
    have h6 : f + l.length + 6 = (f + l.length + 5) + 1 := by omega
    simp only [h6, parse_expression_statement, hexp, PResult.andThen, hsemi,
      Bool.false_eq_true, if_false]
  have hst : parse_statement (f + l.length + 7) (chainState (identTok a0) l) =
      .ok (.ExpressionStatement (chainExp (.Identifier a0) l))
        (chainState (chainLast (identTok a0) l) []) := by
    have h7 : f + l.length + 7 = (f + l.length + 6) + 1 := by omega
    simp only [h7, parse_statement, hkind, hstmt]
  have haux : parse_program_aux (f + l.length + 8) (chainState (identTok a0) l) [] =
      .ok [.ExpressionStatement (chainExp (.Identifier a0) l)] ⟨eofToken, eofToken, []⟩ := by
    have h8 : f + l.length + 8 = (f + l.length + 7) + 1 := by omega
    have hcur : is_current_token (chainState (identTok a0) l) .EOF = false := rfl
    have hnt : next_token (chainState (chainLast (identTok a0) l) []) =
        ⟨eofToken, eofToken, []⟩ := rfl
    have h7' : f + l.length + 7 = (f + l.length + 6) + 1 := by omega
    have hcur2 : is_current_token ⟨eofToken, eofToken, []⟩ .EOF = true := rfl
    simp only [h8, parse_program_aux, hcur, Bool.false_eq_true, if_false, hst,
      PResult.andThen, hnt, List.nil_append, h7', hcur2, if_true]
  simp only [run_parse, parse_program, hmk, haux, PResult.andThen, parsed_statements]

/-- A whole-program run of `a t1 b t2 c` where `t2` out-ranks `t1`: the
higher-rank operator binds its operands first, so the right operand of
`t1` is the whole `t2` infix node. -/
theorem hi_rank_program (a b c : String) (t1 t2 : Token) (f : Nat)
    (h1 : isBinaryOp t1.token_type = true) (h2 : isBinaryOp t2.token_type = true)
    (hlt : precLt t1.get_precedence t2.get_precedence = true) :
    parsed_statements (run_parse (f + 12) [identTok a, t1, identTok b, t2, identTok c]) =
      some [.ExpressionStatement (.InfixExpression (.Identifier a) (opText t1.token_type)
        (.InfixExpression (.Identifier b) (opText t2.token_type) (.Identifier c)))] := by
  have e3 := parse_infix_step (f+1) t2 c [] (.Identifier b) h2
    (by simp [eofToken, Token.get_precedence, precLt, Precedence.rank])
  have e3' : parse_infix_expression (f+4) (.Identifier b) ⟨t2, identTok c, []⟩ =
      .ok (.InfixExpression (.Identifier b) (opText t2.token_type) (.Identifier c))
        ⟨identTok c, eofToken, []⟩ := by simpa using e3
  have e4 := parse_expression_loop_exit (f+3) t1.get_precedence
    (.InfixExpression (.Identifier b) (opText t2.token_type) (.Identifier c))
    ⟨identTok c, eofToken, []⟩
    (Or.inr (by simp [next_precedence, eofToken, Token.get_precedence, precLt,
      Precedence.rank]))
  have e2enter := parse_expression_loop_enter (f+4) t1.get_precedence (.Identifier b)
    ⟨identTok b, t2, [identTok c]⟩ h2 hlt
  have e2 : parse_expression (f+6) t1.get_precedence ⟨identTok b, t2, [identTok c]⟩ =
      .ok (.InfixExpression (.Identifier b) (opText t2.token_type) (.Identifier c))
        ⟨identTok c, eofToken, []⟩ := by
    have hkind2 : (identTok b).token_type = .IDENT := rfl
    have hlit2 : parse_identifier (⟨identTok b, t2, [identTok c]⟩ : PState) = b := rfl
    simp only [parse_expression, hkind2, hlit2, PResult.andThen]
    rw [show (f:Nat) + 5 = (f+4)+1 from rfl, e2enter,
      show next_token (⟨identTok b, t2, [identTok c]⟩ : PState) =
        ⟨t2, identTok c, []⟩ from rfl, e3']
    simp only [PResult.andThen]
    rw [show (f:Nat) + 4 = (f+3)+1 from rfl, e4]
  have e1 : parse_infix_expression (f+7) (.Identifier a) ⟨t1, identTok b, [t2, identTok c]⟩ =
      .ok (.InfixExpression (.Identifier a) (opText t1.token_type)
        (.InfixExpression (.Identifier b) (opText t2.token_type) (.Identifier c)))
        ⟨identTok c, eofToken, []⟩ := by
    rw [show (f:Nat) + 7 = (f+6)+1 from rfl,
      parse_infix_unfold (f+6) (.Identifier a) ⟨t1, identTok b, [t2, identTok c]⟩ h1,
      show (⟨t1, identTok b, [t2, identTok c]⟩ : PState).current_token = t1 from rfl,
      show next_token (⟨t1, identTok b, [t2, identTok c]⟩ : PState) =
        ⟨identTok b, t2, [identTok c]⟩ from rfl, e2]
    simp only [PResult.andThen]
  have e0exit := parse_expression_loop_exit (f+6) .LOWEST
    (.InfixExpression (.Identifier a) (opText t1.token_type)
      (.InfixExpression (.Identifier b) (opText t2.token_type) (.Identifier c)))
    ⟨identTok c, eofToken, []⟩
    (Or.inr (by simp [next_precedence, eofToken, Token.get_precedence, precLt,
      Precedence.rank]))
  have e0enter := parse_expression_loop_enter (f+7) .LOWEST (.Identifier a)
    ⟨identTok a, t1, [identTok b, t2, identTok c]⟩ h1 (binary_prec_pos h1)
  have e0 : parse_expression (f+9) .LOWEST ⟨identTok a, t1, [identTok b, t2, identTok c]⟩ =
      .ok (.InfixExpression (.Identifier a) (opText t1.token_type)
        (.InfixExpression (.Identifier b) (opText t2.token_type) (.Identifier c)))
        ⟨identTok c, eofToken, []⟩ := by
    have hkind0 : (identTok a).token_type = .IDENT := rfl
    have hlit0 : parse_identifier
        (⟨identTok a, t1, [identTok b, t2, identTok c]⟩ : PState) = a := rfl
    simp only [parse_expression, hkind0, hlit0, PResult.andThen]
    rw [show (f:Nat) + 8 = (f+7)+1 from rfl, e0enter,
      show next_token (⟨identTok a, t1, [identTok b, t2, identTok c]⟩ : PState) =
        ⟨t1, identTok b, [t2, identTok c]⟩ from rfl, e1]
    simp only [PResult.andThen]
    rw [show (f:Nat) + 7 = (f+6)+1 from rfl, e0exit]
  have hsemi : is_next_token (⟨identTok c, eofToken, []⟩ : PState) .SEMICOLON = false := rfl
  have hstmt : parse_expression_statement (f+10)
      ⟨identTok a, t1, [identTok b, t2, identTok c]⟩ =
      .ok (.ExpressionStatement (.InfixExpression (.Identifier a) (opText t1.token_type)
        (.InfixExpression (.Identifier b) (opText t2.token_type) (.Identifier c))))
        ⟨identTok c, eofToken, []⟩ := by
    simp only [parse_expression_statement, e0, PResult.andThen, hsemi,
      Bool.false_eq_true, if_false]
  have hst : parse_statement (f+11) ⟨identTok a, t1, [identTok b, t2, identTok c]⟩ =
      .ok (.ExpressionStatement (.InfixExpression (.Identifier a) (opText t1.token_type)
        (.InfixExpression (.Identifier b) (opText t2.token_type) (.Identifier c))))
        ⟨identTok c, eofToken, []⟩ := by
    have hkind0 : (identTok a).token_type = .IDENT := rfl
    simp only [parse_statement, hkind0, hstmt]
  have haux : parse_program_aux (f+12) ⟨identTok a, t1, [identTok b, t2, identTok c]⟩ [] =
      .ok [.ExpressionStatement (.InfixExpression (.Identifier a) (opText t1.token_type)
        (.InfixExpression (.Identifier b) (opText t2.token_type) (.Identifier c)))]
        ⟨eofToken, eofToken, []⟩ := by
    have hcur : is_current_token (⟨identTok a, t1, [identTok b, t2, identTok c]⟩ : PState)
        .EOF = false := rfl
    have hcur2 : is_current_token ⟨eofToken, eofToken, []⟩ .EOF = true := rfl
    have hnt : next_token (⟨identTok c, eofToken, []⟩ : PState) =
        ⟨eofToken, eofToken, []⟩ := rfl
    simp only [parse_program_aux, hcur, Bool.false_eq_true, if_false, hst,
      PResult.andThen, hnt, List.nil_append, hcur2, if_true]
  have hmk : mkParser [identTok a, t1, identTok b, t2, identTok c] =
      ⟨identTok a, t1, [identTok b, t2, identTok c]⟩ := rfl
  simp only [run_parse, parse_program, hmk, haux, PResult.andThen, parsed_statements]

/-- C1: parsing is precedence- and associativity-correct per the seed
cases — `"-a * b"` parses to the tree rendering `"(-a) * b"`,
`"a + b + c"` to the left-nested tree rendering `"(a + b) + c"`, and
`"a + b * c"` to the tree rendering `"a + (b * c)"` — and in general every
chain of equal-rank binary operators parses to the left-deep fold, and a
higher-rank operator binds its operands before a lower-rank one. -/
theorem C1_precedence_associativity :
    (parsed_statements (run_parse 100 [tk .MINUS "-", identTok "a", tk .ASTERISK "*",
        identTok "b"]) =
      some [.ExpressionStatement (.InfixExpression (.PrefixExpression "-" (.Identifier "a"))
        "*" (.Identifier "b"))] ∧
      rendered_statements (run_parse 100 [tk .MINUS "-", identTok "a", tk .ASTERISK "*",
        identTok "b"]) = some ["(-a) * b"]) ∧
    (parsed_statements (run_parse 100 [identTok "a", tk .PLUS "+", identTok "b",
        tk .PLUS "+", identTok "c"]) =
      some [.ExpressionStatement (.InfixExpression (.InfixExpression (.Identifier "a") "+"
        (.Identifier "b")) "+" (.Identifier "c"))] ∧
      rendered_statements (run_parse 100 [identTok "a", tk .PLUS "+", identTok "b",
        tk .PLUS "+", identTok "c"]) = some ["(a + b) + c"]) ∧
    (parsed_statements (run_parse 100 [identTok "a", tk .PLUS "+", identTok "b",
        tk .ASTERISK "*", identTok "c"]) =
      some [.ExpressionStatement (.InfixExpression (.Identifier "a") "+"
        (.InfixExpression (.Identifier "b") "*" (.Identifier "c")))] ∧
      rendered_statements (run_parse 100 [identTok "a", tk .PLUS "+", identTok "b",
        tk .ASTERISK "*", identTok "c"]) = some ["a + (b * c)"]) ∧
    (∀ (a0 : String) (l : List (Token × String)) (r : Precedence) (f : Nat),
      (∀ p ∈ l, isBinaryOp p.1.token_type = true ∧ p.1.get_precedence = r) →
      parsed_statements (run_parse (f + l.length + 8) (chainTokens a0 l)) =
        some [.ExpressionStatement (chainExp (.Identifier a0) l)]) ∧
    (∀ (a b c : String) (t1 t2 : Token) (f : Nat),
      isBinaryOp t1.token_type = true → isBinaryOp t2.token_type = true →
      precLt t1.get_precedence t2.get_precedence = true →
      parsed_statements (run_parse (f + 12) [identTok a, t1, identTok b, t2, identTok c]) =
        some [.ExpressionStatement (.InfixExpression (.Identifier a) (opText t1.token_type)
          (.InfixExpression (.Identifier b) (opText t2.token_type) (.Identifier c)))]) :=
  ⟨⟨rfl, rfl⟩, ⟨rfl, rfl⟩, ⟨rfl, rfl⟩, chain_program, hi_rank_program⟩

/-- C1 witness: the equal-rank chain conjunct at `"x + y - z"` and the
higher-rank conjunct at `"u + v * w"`. -/
theorem C1_precedence_associativity_witness :
    parsed_statements (run_parse 10
        (chainTokens "x" [(⟨.PLUS, "+"⟩, "y"), (⟨.MINUS, "-"⟩, "z")])) =
      some [.ExpressionStatement
        (chainExp (.Identifier "x") [(⟨.PLUS, "+"⟩, "y"), (⟨.MINUS, "-"⟩, "z")])] ∧
    parsed_statements (run_parse 12 [identTok "u", ⟨.PLUS, "+"⟩, identTok "v",
        ⟨.ASTERISK, "*"⟩, identTok "w"]) =
      some [.ExpressionStatement (.InfixExpression (.Identifier "u") "+"
        (.InfixExpression (.Identifier "v") "*" (.Identifier "w")))] :=
  ⟨C1_precedence_associativity.2.2.2.1 "x" [(⟨.PLUS, "+"⟩, "y"), (⟨.MINUS, "-"⟩, "z")]
      .SUM 0 (by decide),
   C1_precedence_associativity.2.2.2.2 "u" "v" "w" ⟨.PLUS, "+"⟩ ⟨.ASTERISK, "*"⟩ 0
      (by decide) (by decide) (by decide)⟩
